import Mathlib

/-!
Verification of the Sudoku SAT encoder/decoder (`src/main.rs`).

The program encodes a 9x9 Sudoku grid as a SAT instance over 729 variables
(one per (row, column, digit) triple), solves it and decodes the satisfying
assignment back into the grid.  This file embeds the encoder, the decoder
and the stdin grid reader as executable Lean definitions and proves the
specification claims about them.
-/

set_option maxRecDepth 100000

namespace SudokuSolver

/-- A propositional literal as in rsat: a variable index and a negation flag.
`Lit::new(v, false)` is the positive literal of variable `v`. -/
structure Lit where
  var : Nat
  neg : Bool
deriving DecidableEq

/-- Negation of a literal (`!l` in rsat): same variable, flipped flag. -/
def negLit (l : Lit) : Lit := ⟨l.var, !l.neg⟩

/-- A clause is the list of its literals, in emission order. -/
abbrev Clause := List Lit

/-- The 9x9 grid, `grid[i][j]` being the digit (0 = empty) at row i, column j.
Modelled as a total function; the Rust array is total on indices below 9. -/
abbrev Grid := Nat → Nat → Nat

/-- The literal table construction of `Sudoku::new`: the triple loop over
(i, j, k) fills a 9x9x9 table where each entry is the positive literal of a
freshly allocated solver variable; `new_var` hands out 0, 1, 2, ... in order.
Returns the table together with the final variable count. -/
def allocLits : List (List (List Lit)) × Nat :=
  (List.range 9).foldl
    (fun st _i =>
      let inner :=
        (List.range 9).foldl
          (fun st2 _j =>
            let cell :=
              (List.range 9).foldl
                (fun st3 _k => (st3.1 ++ [Lit.mk st3.2 false], st3.2 + 1))
                (([] : List Lit), st2.2)
            (st2.1 ++ [cell.1], cell.2))
          (([] : List (List Lit)), st.2)
      (st.1 ++ [inner.1], inner.2))
    (([] : List (List (List Lit))), 0)

/-- Lookup `lits[i][j][k]` in the allocated table; `none` models the index
out-of-bounds panic of a Rust array access. -/
def litAt (i j k : Nat) : Option Lit :=
  ((allocLits.1.get? i).bind fun r => r.get? j).bind fun c => c.get? k

/-- Closed form of the allocated table: the variable of `lits[i][j][k]` is
`9*9*i + 9*j + k` (proved against `allocLits` in `litAt_eq_lit`). -/
def lit (i j k : Nat) : Lit := ⟨9 * 9 * i + 9 * j + k, false⟩

/-- The literal table written out as nested maps, used to evaluate `allocLits`
once instead of per lookup. -/
def tableLits : List (List (List Lit)) :=
  (List.range 9).map fun i =>
    (List.range 9).map fun j => (List.range 9).map fun k => lit i j k

set_option maxHeartbeats 2000000 in
theorem allocLits_eq : allocLits = (tableLits, 729) := by decide

theorem litAt_eq_lit :
    ∀ i < 9, ∀ j < 9, ∀ k < 9, litAt i j k = some (lit i j k) := by
  simp only [litAt, allocLits_eq]
  decide

theorem allocLits_count : allocLits.2 = 729 := by
  simp only [allocLits_eq]

/-- Row index of the l-th cell of the 3x3 box containing row i
(`mod_i = (i / 3) * 3 + l / 3` in the source). -/
def modI (i l : Nat) : Nat := i / 3 * 3 + l / 3

/-- Column index of the l-th cell of the 3x3 box containing column j
(`mod_j = (j / 3) * 3 + l % 3` in the source). -/
def modJ (j l : Nat) : Nat := j / 3 * 3 + l % 3

/-- The clauses registered by one iteration of the inner `(k, l)` loop of
`Sudoku::new`, in source order: cell uniqueness (k and l as two digits of the
cell), row uniqueness (l as another column), column uniqueness (l as another
row), box uniqueness (l enumerating the cells of the box). -/
def pairStep (i j k l : Nat) : List Clause :=
  (if k ≠ l then [[negLit (lit i j k), negLit (lit i j l)]] else []) ++
    (if j ≠ l then [[negLit (lit i j k), negLit (lit i l k)]] else []) ++
    (if i ≠ l then [[negLit (lit i j k), negLit (lit l j k)]] else []) ++
    (if i ≠ modI i l ∨ j ≠ modJ j l then
      [[negLit (lit i j k), negLit (lit (modI i l) (modJ j l) k)]]
    else [])

/-- The at-least-one clause of cell (i, j): the vector `cl` of the 9 positive
literals of the cell, pushed during the k loop. -/
def atLeastOne (i j : Nat) : Clause := (List.range 9).map fun k => lit i j k

/-- All pairwise clauses of the (k, l) loop for cell (i, j). -/
def pairClauses (i j : Nat) : List Clause :=
  (List.range 9).flatMap fun k => (List.range 9).flatMap fun l => pairStep i j k l

/-- All clauses registered while `Sudoku::new` processes cell (i, j):
the pairwise clauses of the (k, l) loop, then the at-least-one clause,
then a unit clause when the cell holds a clue. -/
def cellClauses (g : Grid) (i j : Nat) : List Clause :=
  pairClauses i j ++ [atLeastOne i j] ++
    (if g i j ≠ 0 then [[lit i j (g i j - 1)]] else [])

/-- The full clause list registered by `Sudoku::new`, cells in row-major
order. -/
def allClauses (g : Grid) : List Clause :=
  (List.range 9).flatMap fun i => (List.range 9).flatMap fun j => cellClauses g i j

/-- The clue injection for cell (i, j): when `grid[i][j] != 0`, the unit clause
`vec![lits[i][j][grid[i][j] - 1]]` is registered; the table lookup is the
checked access, so a grid value above 9 is the out-of-bounds panic (`none`). -/
def clueClause (g : Grid) (i j : Nat) : Option (List Clause) :=
  if g i j ≠ 0 then (litAt i j (g i j - 1)).map fun l0 => [[l0]] else some []

/-- The clauses of cell (i, j) with the clue lookup checked. -/
def encodeCell (g : Grid) (i j : Nat) : Option (List Clause) :=
  (clueClause g i j).map fun cc => pairClauses i j ++ [atLeastOne i j] ++ cc

/-- The whole encoding pass of `Sudoku::new` with the data-dependent table
lookups checked: `none` models an out-of-bounds panic during clue injection. -/
def encode (g : Grid) : Option (List Clause) :=
  (((List.range 9).mapM fun i =>
      ((List.range 9).mapM fun j => encodeCell g i j).map List.flatten).map
    List.flatten)

/-- Functional update of the grid at one cell
(`self.grid[i][j] = v` in the source). -/
def update (g : Grid) (i j v : Nat) : Grid :=
  fun a b => if a = i ∧ b = j then v else g a b

/-- One step of the decoding k loop of `Sudoku::solve` for cell (i, j): when
the variable at flat index `9*9*i + 9*j + k` is true, panic (`none`) if the
cell already holds a different non-zero value, otherwise write `k + 1`. -/
def decodeStepK (sol : Nat → Bool) (i j : Nat) (g : Grid) (k : Nat) : Option Grid :=
  if sol (9 * 9 * i + 9 * j + k) then
    if g i j ≠ 0 ∧ g i j ≠ k + 1 then none
    else some (update g i j (k + 1))
  else some g

/-- The decoding pass of `Sudoku::solve` on a satisfying assignment: the
triple loop over (i, j, k), mutating the grid in place; `none` models the
"Something wrong, couldn't solve!" panic. -/
def decodeGrid (sol : Nat → Bool) (g : Grid) : Option Grid :=
  (List.range 9).foldlM
    (fun g i =>
      (List.range 9).foldlM
        (fun g j => (List.range 9).foldlM (decodeStepK sol i j) g) g)
    g

/-- One step of the decoding k loop acting on the value of cell (i, j) alone:
the loop body of `decodeStepK` reads and writes nothing but `grid[i][j]`. -/
def cellStep (sol : Nat → Bool) (i j v k : Nat) : Option Nat :=
  if sol (9 * 9 * i + 9 * j + k) then
    if v ≠ 0 ∧ v ≠ k + 1 then none else some (k + 1)
  else some v

/-- The per-cell value fold equivalent to the decoding k loop: it threads the
current value of cell (i, j) instead of the whole grid. -/
def decodeCellVal (sol : Nat → Bool) (i j v : Nat) : Option Nat :=
  (List.range 9).foldlM (cellStep sol i j) v

/-- The result of rsat's solve call. -/
inductive Solution where
  | Sat : (Nat → Bool) → Solution
  | Unsat : Solution
  | Unknown : Solution
  | Best : (Nat → Bool) → Solution

/-- The observable outcome of `Sudoku::solve`: the "Couldn't solve!" panic of
the non-Sat branches (carrying the untouched grid), the
"Something wrong, couldn't solve!" panic inside decoding, or the decoded
grid. -/
inductive SolveOutcome where
  | decodeFailure : SolveOutcome
  | solverFailure : Grid → SolveOutcome
  | ok : Grid → SolveOutcome

/-- The body of `Sudoku::solve`: match on the solver result, decode on Sat,
panic otherwise. -/
def solveStep (res : Solution) (g : Grid) : SolveOutcome :=
  match res with
  | Solution.Sat sol =>
    match decodeGrid sol g with
    | some g2 => SolveOutcome.ok g2
    | none => SolveOutcome.decodeFailure
  | Solution.Unsat => SolveOutcome.solverFailure g
  | Solution.Unknown => SolveOutcome.solverFailure g
  | Solution.Best _ => SolveOutcome.solverFailure g

/-- The character-to-cell mapping of `read_grid_from_stdin`:
`'1'..='9'` maps to the digit, anything else to 0. -/
def charToCell (c : Char) : Nat :=
  if '1' ≤ c ∧ c ≤ '9' then c.toNat - '0'.toNat else 0

/-- One `read_line` call on the remaining input: the consumed line (up to and
including its newline, or all of the input when no newline is left — an
exhausted stdin yields the empty line) and the rest. -/
def readLine : List Char → List Char × List Char
  | [] => ([], [])
  | c :: cs =>
    if c = '\n' then ([c], cs)
    else
      let r := readLine cs
      (c :: r.1, r.2)

/-- The byte length of the line, as Rust's `String::len` counts it
(UTF-8 bytes, the trailing newline included). -/
def lineBytes (l : List Char) : Nat := (l.map Char.utf8Size).sum

/-- Read `n` cells of a line starting at character index `j`
(`line.chars().collect::<Vec<char>>()[j]` in the source); an index past the
end of the line is the vector index panic (`none`). -/
def parseCells (line : List Char) : Nat → Nat → Option (List Nat)
  | _, 0 => some []
  | j, n + 1 =>
    match line.get? j with
    | none => none
    | some c => (parseCells line (j + 1) n).map fun r => charToCell c :: r

/-- The first 9 cells of a line. -/
def parseLine (line : List Char) : Option (List Nat) := parseCells line 0 9

/-- What a run of `read_grid_from_stdin` can do: panic (character index out of
bounds), return `None`, or return a grid. -/
inductive ReadResult where
  | panicked : ReadResult
  | noGrid : ReadResult
  | grid : List (List Nat) → ReadResult
deriving DecidableEq

/-- The row loop of `read_grid_from_stdin`: read a line, fail with `None` when
its byte length (newline included) is under 9, otherwise parse its first 9
characters and continue with the rest of the input. -/
def readGridAux : Nat → List Char → List (List Nat) → ReadResult
  | 0, _, acc => ReadResult.grid acc
  | n + 1, input, acc =>
    let lr := readLine input
    if lineBytes lr.1 < 9 then ReadResult.noGrid
    else
      match parseLine lr.1 with
      | none => ReadResult.panicked
      | some row => readGridAux n lr.2 (acc ++ [row])

/-- The embedding of `read_grid_from_stdin`, the stdin content given as a
character list. -/
def readGridFromStdin (input : List Char) : ReadResult :=
  readGridAux 9 input []

/-- The first `n` raw lines of the input, as successive `read_line` calls
return them. -/
def takeLines : Nat → List Char → List (List Char)
  | 0, _ => []
  | n + 1, input =>
    let lr := readLine input
    lr.1 :: takeLines n lr.2

section EncoderLemmas

theorem mem_ite_singleton {α : Type} {p : Prop} [Decidable p] {x c : α} :
    (c ∈ if p then [x] else []) ↔ p ∧ c = x := by
  split
  · simp_all
  · simp_all

theorem mem_pairStep {c : Clause} {i j k l : Nat} :
    c ∈ pairStep i j k l ↔
      (k ≠ l ∧ c = [negLit (lit i j k), negLit (lit i j l)]) ∨
        (j ≠ l ∧ c = [negLit (lit i j k), negLit (lit i l k)]) ∨
          (i ≠ l ∧ c = [negLit (lit i j k), negLit (lit l j k)]) ∨
            ((i ≠ modI i l ∨ j ≠ modJ j l) ∧
              c = [negLit (lit i j k), negLit (lit (modI i l) (modJ j l) k)]) := by
  simp only [pairStep, List.mem_append, mem_ite_singleton, or_assoc]

theorem mem_cellClauses {g : Grid} {c : Clause} {i j : Nat} :
    c ∈ cellClauses g i j ↔
      (∃ k < 9, ∃ l < 9, c ∈ pairStep i j k l) ∨
        c = atLeastOne i j ∨ (g i j ≠ 0 ∧ c = [lit i j (g i j - 1)]) := by
  simp only [cellClauses, pairClauses, List.mem_append, List.mem_flatMap,
    List.mem_range, mem_ite_singleton, List.mem_singleton, or_assoc]

theorem mem_allClauses {g : Grid} {c : Clause} :
    c ∈ allClauses g ↔ ∃ i < 9, ∃ j < 9, c ∈ cellClauses g i j := by
  simp only [allClauses, List.mem_flatMap, List.mem_range]

theorem modI_lt {i l : Nat} (hi : i < 9) (hl : l < 9) : modI i l < 9 := by
  unfold modI; omega

theorem modJ_lt {j l : Nat} (hj : j < 9) (hl : l < 9) : modJ j l < 9 := by
  unfold modJ; omega

theorem pairStep_subset_allClauses {g : Grid} {c : Clause} {i j k l : Nat}
    (hi : i < 9) (hj : j < 9) (hk : k < 9) (hl : l < 9)
    (hc : c ∈ pairStep i j k l) : c ∈ allClauses g := by
  exact mem_allClauses.mpr ⟨i, hi, j, hj, mem_cellClauses.mpr
    (Or.inl ⟨k, hk, l, hl, hc⟩)⟩

theorem atLeastOne_length (i j : Nat) : (atLeastOne i j).length = 9 := by
  simp [atLeastOne]

theorem length_of_mem_pairStep {c : Clause} {i j k l : Nat}
    (hc : c ∈ pairStep i j k l) : c.length = 2 := by
  rcases mem_pairStep.mp hc with ⟨_, rfl⟩ | ⟨_, rfl⟩ | ⟨_, rfl⟩ | ⟨_, rfl⟩ <;> rfl

/-- Every emitted clause has pairwise distinct variables; in particular no
binary clause compares a variable with itself. -/
theorem allClauses_no_self {g : Grid} {c : Clause} (hc : c ∈ allClauses g)
    {a b : Lit} (he : c = [a, b]) : a.var ≠ b.var := by
  subst he
  rcases mem_allClauses.mp hc with ⟨i, hi, j, hj, hcell⟩
  rcases mem_cellClauses.mp hcell with ⟨k, hk, l, hl, hpair⟩ | halo | ⟨_, hunit⟩
  · rcases mem_pairStep.mp hpair with ⟨hne, he⟩ | ⟨hne, he⟩ | ⟨hne, he⟩ | ⟨hne, he⟩ <;>
      [skip; skip; skip; (rcases hne with hne | hne)] <;>
      · injection he with h1 h2
        injection h2 with h2 _
        subst h1; subst h2
        simp only [negLit, lit, modI, modJ] at *
        omega
  · have := atLeastOne_length i j
    rw [← halo] at this
    simp at this
  · simp at hunit

end EncoderLemmas

/-- C1: for every cell (i, j) and every ordered pair of distinct digits
k ≠ l the encoder emits the binary cell-uniqueness clause; analogous binary
clauses are emitted for row pairs (j ≠ l), column pairs (i ≠ l) and box peers
((mod_i, mod_j) ≠ (i, j)); and no emitted clause compares a variable with
itself. -/
theorem claim_c1 (g : Grid) (i j k l : Nat)
    (hi : i < 9) (hj : j < 9) (hk : k < 9) (hl : l < 9) :
    (k ≠ l → [negLit (lit i j k), negLit (lit i j l)] ∈ allClauses g) ∧
      (j ≠ l → [negLit (lit i j k), negLit (lit i l k)] ∈ allClauses g) ∧
        (i ≠ l → [negLit (lit i j k), negLit (lit l j k)] ∈ allClauses g) ∧
          ((i ≠ modI i l ∨ j ≠ modJ j l) →
            [negLit (lit i j k), negLit (lit (modI i l) (modJ j l) k)] ∈ allClauses g) ∧
            (∀ c ∈ allClauses g, ∀ a b : Lit, c = [a, b] → a.var ≠ b.var) := by
  refine ⟨fun h => ?_, fun h => ?_, fun h => ?_, fun h => ?_,
    fun c hc a b he => allClauses_no_self hc he⟩ <;>
    exact pairStep_subset_allClauses hi hj hk hl (mem_pairStep.mpr (by tauto))

section CountingLemmas

theorem countP_flatMap {α β : Type} (p : β → Bool) (f : α → List β) (l : List α) :
    (l.flatMap f).countP p = (l.map fun a => (f a).countP p).sum := by
  induction l with
  | nil => rfl
  | cons a l ih => simp [List.countP_append, ih]

theorem mem_pairClauses {c : Clause} {i j : Nat} :
    c ∈ pairClauses i j ↔ ∃ k < 9, ∃ l < 9, c ∈ pairStep i j k l := by
  simp only [pairClauses, List.mem_flatMap, List.mem_range]

theorem countP_pairClauses_len9 (i j : Nat) :
    (pairClauses i j).countP (fun c => c.length == 9) = 0 := by
  refine List.countP_eq_zero.mpr fun c hc => ?_
  rcases mem_pairClauses.mp hc with ⟨k, _, l, _, hp⟩
  simp [length_of_mem_pairStep hp]

theorem countP_cellClauses_len9 (g : Grid) (i j : Nat) :
    (cellClauses g i j).countP (fun c => c.length == 9) = 1 := by
  unfold cellClauses
  rw [List.countP_append, List.countP_append, countP_pairClauses_len9]
  have h2 : ([atLeastOne i j] : List Clause).countP (fun c => c.length == 9) = 1 := by
    simp [List.countP_cons, atLeastOne_length]
  have h3 : (if g i j ≠ 0 then [[lit i j (g i j - 1)]] else []).countP
      (fun c => c.length == 9) = 0 := by
    split <;> simp
  rw [h2, h3]

theorem countP_allClauses_len9 (g : Grid) :
    (allClauses g).countP (fun c => c.length == 9) = 81 := by
  unfold allClauses
  rw [countP_flatMap]
  simp only [countP_flatMap, countP_cellClauses_len9]
  decide

theorem len9_is_atLeastOne {g : Grid} {c : Clause} (hc : c ∈ allClauses g)
    (hlen : c.length = 9) : ∃ i < 9, ∃ j < 9, c = atLeastOne i j := by
  rcases mem_allClauses.mp hc with ⟨i, hi, j, hj, hcell⟩
  rcases mem_cellClauses.mp hcell with ⟨k, _, l, _, hp⟩ | halo | ⟨_, hunit⟩
  · have := length_of_mem_pairStep hp
    omega
  · exact ⟨i, hi, j, hj, halo⟩
  · subst hunit
    simp at hlen

end CountingLemmas

/-- C2: the encoder allocates exactly 729 variables, one per (row, column,
digit) triple in row-major, then column, then digit order, and emits exactly
81 at-least-one clauses, each listing the 9 positive literals of one cell. -/
theorem claim_c2 (g : Grid) :
    allocLits.2 = 729 ∧
      (∀ i < 9, ∀ j < 9, ∀ k < 9,
        litAt i j k = some (lit i j k) ∧ lit i j k = ⟨9 * 9 * i + 9 * j + k, false⟩) ∧
        (allClauses g).countP (fun c => c.length == 9) = 81 ∧
          (∀ c ∈ allClauses g, c.length = 9 → ∃ i < 9, ∃ j < 9, c = atLeastOne i j) ∧
            (∀ i < 9, ∀ j < 9,
              atLeastOne i j ∈ allClauses g ∧
                atLeastOne i j = ((List.range 9).map fun k => lit i j k) ∧
                  ∀ x ∈ atLeastOne i j, x.neg = false) := by
  refine ⟨allocLits_count, fun i hi j hj k hk => ⟨litAt_eq_lit i hi j hj k hk, rfl⟩,
    countP_allClauses_len9 g, fun c hc hl => len9_is_atLeastOne hc hl,
    fun i hi j hj => ⟨?_, rfl, ?_⟩⟩
  · exact mem_allClauses.mpr ⟨i, hi, j, hj, mem_cellClauses.mpr (Or.inr (Or.inl rfl))⟩
  · intro x hx
    simp only [atLeastOne, List.mem_map] at hx
    rcases hx with ⟨k, _, rfl⟩
    rfl

section UnitClauseLemmas

theorem sum_indicator_range {n t : Nat} (f : Nat → Nat) (ht : t < n)
    (hf : ∀ x < n, f x = if x = t then 1 else 0) :
    ((List.range n).map f).sum = 1 := by
  induction n with
  | zero => omega
  | succ n ih =>
    rw [List.range_succ, List.map_append, List.sum_append]
    simp only [List.map_cons, List.map_nil, List.sum_cons, List.sum_nil]
    by_cases h : t = n
    · have hz : ((List.range n).map f).sum = 0 := by
        refine List.sum_eq_zero fun x hx => ?_
        simp only [List.mem_map, List.mem_range] at hx
        rcases hx with ⟨y, hy, rfl⟩
        rw [hf y (by omega)]
        simp only [ite_eq_right_iff]
        omega
      rw [hz, hf n (by omega), if_pos h.symm]
      omega
    · rw [ih (by omega) fun x hx => hf x (by omega), hf n (by omega),
        if_neg fun he => h he.symm]
      omega

theorem countP_pairClauses_unit (i j : Nat) (u : Lit) :
    (pairClauses i j).countP (fun c => c == [u]) = 0 := by
  refine List.countP_eq_zero.mpr fun c hc => ?_
  rcases mem_pairClauses.mp hc with ⟨k, _, l, _, hp⟩
  have h2 := length_of_mem_pairStep hp
  simp only [beq_iff_eq]
  intro he
  rw [he] at h2
  simp at h2

theorem countP_cellClauses_unit {g : Grid} (hv : ∀ a < 9, ∀ b < 9, g a b ≤ 9)
    {i j : Nat} (hi : i < 9) (hj : j < 9) (h0 : g i j ≠ 0)
    {a b : Nat} (ha : a < 9) (hb : b < 9) :
    (cellClauses g a b).countP (fun c => c == [lit i j (g i j - 1)]) =
      if a = i ∧ b = j then 1 else 0 := by
  unfold cellClauses
  rw [List.countP_append, List.countP_append, countP_pairClauses_unit]
  have halo : ¬(atLeastOne a b = [lit i j (g i j - 1)]) := by
    intro he
    have h9 := atLeastOne_length a b
    rw [he] at h9
    simp at h9
  have h2 : ([atLeastOne a b] : List Clause).countP
      (fun c => c == [lit i j (g i j - 1)]) = 0 := by
    simp [List.countP_cons, halo]
  rw [h2]
  have hdi : g i j - 1 < 9 := by have := hv i hi j hj; omega
  by_cases hab : a = i ∧ b = j
  · rcases hab with ⟨rfl, rfl⟩
    simp [h0]
  · rw [if_neg hab]
    split
    · rename_i hg0
      have hda : g a b - 1 < 9 := by have := hv a ha b hb; omega
      have hne : ¬(lit a b (g a b - 1) = lit i j (g i j - 1)) := by
        simp only [lit, Lit.mk.injEq, and_true]
        intro he
        exact hab (by omega)
      simp [List.countP_cons, hne]
    · rfl

theorem countP_allClauses_unit {g : Grid} (hv : ∀ a < 9, ∀ b < 9, g a b ≤ 9)
    {i j : Nat} (hi : i < 9) (hj : j < 9) (h0 : g i j ≠ 0) :
    (allClauses g).countP (fun c => c == [lit i j (g i j - 1)]) = 1 := by
  unfold allClauses
  rw [countP_flatMap]
  refine sum_indicator_range _ hi fun a ha => ?_
  rw [countP_flatMap]
  by_cases hai : a = i
  · subst hai
    rw [if_pos rfl]
    refine sum_indicator_range _ hj fun b hb => ?_
    rw [countP_cellClauses_unit hv hi hj h0 ha hb]
    by_cases hbj : b = j
    · subst hbj
      simp
    · rw [if_neg (by tauto), if_neg hbj]
  · rw [if_neg hai]
    refine List.sum_eq_zero fun x hx => ?_
    simp only [List.mem_map, List.mem_range] at hx
    rcases hx with ⟨b, hb, rfl⟩
    rw [countP_cellClauses_unit hv hi hj h0 ha hb, if_neg (by tauto)]

theorem no_unit_for_empty_cell {g : Grid} (hv : ∀ a < 9, ∀ b < 9, g a b ≤ 9)
    {i j : Nat} (hi : i < 9) (hj : j < 9) (h0 : g i j = 0)
    {c : Clause} (hc : c ∈ allClauses g) {l0 : Lit} (he : c = [l0])
    {d : Nat} (hd : d < 9) : l0.var ≠ 9 * 9 * i + 9 * j + d := by
  subst he
  rcases mem_allClauses.mp hc with ⟨a, ha, b, hb, hcell⟩
  rcases mem_cellClauses.mp hcell with ⟨k, _, l, _, hp⟩ | halo | ⟨hg0, hunit⟩
  · have h2 := length_of_mem_pairStep hp
    simp at h2
  · have h9 := atLeastOne_length a b
    rw [← halo] at h9
    simp at h9
  · simp only [List.cons.injEq, and_true] at hunit
    subst hunit
    have hda : g a b - 1 < 9 := by have := hv a ha b hb; omega
    have hne : ¬(a = i ∧ b = j) := by
      intro ⟨h1, h2⟩
      subst h1; subst h2
      exact hg0 h0
    simp only [lit]
    intro he
    exact hne (by omega)

theorem filter_flatMap {α β : Type} (p : β → Bool) (f : α → List β) (l : List α) :
    (l.flatMap f).filter p = l.flatMap fun a => (f a).filter p := by
  induction l with
  | nil => rfl
  | cons a l ih => simp [List.filter_append, ih]

theorem filter_cellClauses_nonunit (g : Grid) (i j : Nat) :
    (cellClauses g i j).filter (fun c => c.length != 1) =
      pairClauses i j ++ [atLeastOne i j] := by
  unfold cellClauses
  rw [List.filter_append, List.filter_append]
  have h1 : (pairClauses i j).filter (fun c => c.length != 1) = pairClauses i j := by
    refine List.filter_eq_self.mpr fun c hc => ?_
    rcases mem_pairClauses.mp hc with ⟨k, _, l, _, hp⟩
    rw [length_of_mem_pairStep hp]
    rfl
  have h2 : ([atLeastOne i j] : List Clause).filter (fun c => c.length != 1) =
      [atLeastOne i j] := by
    simp [List.filter, atLeastOne_length]
  have h3 : (if g i j ≠ 0 then [[lit i j (g i j - 1)]] else []).filter
      (fun c => c.length != 1) = [] := by
    split
    · rfl
    · rfl
  rw [h1, h2, h3, List.append_nil]

theorem filter_allClauses_nonunit (g g2 : Grid) :
    (allClauses g).filter (fun c => c.length != 1) =
      (allClauses g2).filter (fun c => c.length != 1) := by
  unfold allClauses
  rw [filter_flatMap, filter_flatMap]
  refine congrArg _ (funext fun i => ?_)
  rw [filter_flatMap, filter_flatMap]
  refine congrArg _ (funext fun j => ?_)
  rw [filter_cellClauses_nonunit, filter_cellClauses_nonunit]

end UnitClauseLemmas

/-- C3: exactly the cells holding a clue receive exactly one unit clause
asserting that clue, empty cells receive no unit clause over their variables,
and the non-unit clauses are the same for every grid. -/
theorem claim_c3 (g g2 : Grid) (i j : Nat)
    (hv : ∀ a < 9, ∀ b < 9, g a b ≤ 9) (hi : i < 9) (hj : j < 9) :
    (g i j ≠ 0 → (allClauses g).countP (fun c => c == [lit i j (g i j - 1)]) = 1) ∧
      (g i j = 0 → ∀ c ∈ allClauses g, ∀ l0 : Lit, c = [l0] →
        ∀ d < 9, l0.var ≠ 9 * 9 * i + 9 * j + d) ∧
        (allClauses g).filter (fun c => c.length != 1) =
          (allClauses g2).filter (fun c => c.length != 1) := by
  exact ⟨fun h0 => countP_allClauses_unit hv hi hj h0,
    fun h0 c hc l0 he d hd => no_unit_for_empty_cell hv hi hj h0 hc he hd,
    filter_allClauses_nonunit g g2⟩

/-- Witness for C3 on the grid whose only clue is a 5 at cell (0, 0). -/
theorem claim_c3_witness :
    ((fun a b => if a = 0 ∧ b = 0 then 5 else 0 : Grid) 0 0 ≠ 0 →
      (allClauses fun a b => if a = 0 ∧ b = 0 then 5 else 0).countP
        (fun c => c ==
          [lit 0 0 ((fun a b => if a = 0 ∧ b = 0 then 5 else 0 : Grid) 0 0 - 1)]) = 1) ∧
      ((fun a b => if a = 0 ∧ b = 0 then 5 else 0 : Grid) 0 0 = 0 →
        ∀ c ∈ allClauses fun a b => if a = 0 ∧ b = 0 then 5 else 0, ∀ l0 : Lit,
          c = [l0] → ∀ d < 9, l0.var ≠ 9 * 9 * 0 + 9 * 0 + d) ∧
        (allClauses fun a b => if a = 0 ∧ b = 0 then 5 else 0).filter
            (fun c => c.length != 1) =
          (allClauses fun _ _ => 0).filter (fun c => c.length != 1) :=
  claim_c3 (fun a b => if a = 0 ∧ b = 0 then 5 else 0) (fun _ _ => 0) 0 0
    (by decide) (by decide) (by decide)

section EncodeLemmas

theorem mapM_eq_some {α β : Type} {f : α → Option β} {gf : α → β} :
    ∀ {l : List α}, (∀ a ∈ l, f a = some (gf a)) → l.mapM f = some (l.map gf) := by
  intro l
  induction l with
  | nil => intro _; rfl
  | cons a l ih =>
    intro h
    rw [List.mapM_cons, h a (List.mem_cons_self a l),
      ih fun x hx => h x (List.mem_cons_of_mem _ hx)]
    rfl

theorem encodeCell_eq_some {g : Grid} (hv : ∀ a < 9, ∀ b < 9, g a b ≤ 9)
    {i j : Nat} (hi : i < 9) (hj : j < 9) :
    encodeCell g i j = some (cellClauses g i j) := by
  unfold encodeCell clueClause cellClauses
  by_cases h0 : g i j ≠ 0
  · rw [if_pos h0, if_pos h0,
      litAt_eq_lit i hi j hj _ (by have := hv i hi j hj; omega)]
    rfl
  · rw [if_neg h0, if_neg h0]
    rfl

theorem encode_eq_some {g : Grid} (hv : ∀ a < 9, ∀ b < 9, g a b ≤ 9) :
    encode g = some (allClauses g) := by
  unfold encode
  have hinner : ∀ i ∈ List.range 9,
      (((List.range 9).mapM fun j => encodeCell g i j).map List.flatten) =
        some ((List.range 9).flatMap fun j => cellClauses g i j) := by
    intro i hi
    rw [mapM_eq_some fun j hj =>
      encodeCell_eq_some hv (List.mem_range.mp hi) (List.mem_range.mp hj)]
    simp [List.flatMap_def]
  rw [mapM_eq_some hinner]
  simp [allClauses, List.flatMap_def]

end EncodeLemmas

/-- C9: on any grid whose values lie in 0..9, every table access of
`Sudoku::new` is in bounds: the encoding runs to completion (no `none` from a
checked lookup) and the clue-injection index `grid[i][j] - 1` is below 9
whenever `grid[i][j]` is non-zero. -/
theorem claim_c9 (g : Grid) (hv : ∀ a < 9, ∀ b < 9, g a b ≤ 9) :
    encode g = some (allClauses g) ∧
      ∀ i < 9, ∀ j < 9, g i j ≠ 0 → g i j - 1 < 9 := by
  exact ⟨encode_eq_some hv, fun i hi j hj h0 => by have := hv i hi j hj; omega⟩

/-- Witness for C9 on the grid whose only clue is a 9 at cell (8, 8). -/
theorem claim_c9_witness :
    encode (fun a b => if a = 8 ∧ b = 8 then 9 else 0) =
        some (allClauses fun a b => if a = 8 ∧ b = 8 then 9 else 0) ∧
      ∀ i < 9, ∀ j < 9, (fun a b => if a = 8 ∧ b = 8 then 9 else 0 : Grid) i j ≠ 0 →
        (fun a b => if a = 8 ∧ b = 8 then 9 else 0 : Grid) i j - 1 < 9 :=
  claim_c9 (fun a b => if a = 8 ∧ b = 8 then 9 else 0) (by decide)

/-- Witness for C1 at cell (0, 0), digits 0 and 1. -/
theorem claim_c1_witness :
    (0 ≠ 1 → [negLit (lit 0 0 0), negLit (lit 0 0 1)] ∈ allClauses fun _ _ => 0) ∧
      (0 ≠ 1 → [negLit (lit 0 0 0), negLit (lit 0 1 0)] ∈ allClauses fun _ _ => 0) ∧
        (0 ≠ 1 → [negLit (lit 0 0 0), negLit (lit 1 0 0)] ∈ allClauses fun _ _ => 0) ∧
          ((0 ≠ modI 0 1 ∨ 0 ≠ modJ 0 1) →
            [negLit (lit 0 0 0), negLit (lit (modI 0 1) (modJ 0 1) 0)] ∈
              allClauses fun _ _ => 0) ∧
            (∀ c ∈ allClauses fun _ _ => 0, ∀ a b : Lit, c = [a, b] → a.var ≠ b.var) :=
  claim_c1 (fun _ _ => 0) 0 0 0 1 (by decide) (by decide) (by decide) (by decide)

section DecodeLemmas

theorem update_self (g : Grid) (i j v : Nat) : update g i j v i j = v := by
  simp [update]

theorem update_other (g : Grid) {i j a b : Nat} (v : Nat) (h : ¬(a = i ∧ b = j)) :
    update g i j v a b = g a b := by
  simp [update, h]

theorem update_update (g : Grid) (i j v w : Nat) :
    update (update g i j v) i j w = update g i j w := by
  funext a b
  by_cases h : a = i ∧ b = j <;> simp [update, h]

theorem update_id (g : Grid) (i j : Nat) : update g i j (g i j) = g := by
  funext a b
  by_cases h : a = i ∧ b = j
  · rcases h with ⟨rfl, rfl⟩
    simp [update]
  · simp [update, h]

/-- The decoding k loop for cell (i, j) factors through the value fold: only
`grid[i][j]` is read or written, so the loop is the value fold followed by a
single write. -/
theorem foldK_factor (sol : Nat → Bool) (i j : Nat) :
    ∀ (ks : List Nat) (g : Grid),
      ks.foldlM (decodeStepK sol i j) g =
        (ks.foldlM (cellStep sol i j) (g i j)).map fun v => update g i j v := by
  intro ks
  induction ks with
  | nil => intro g; simp [update_id]
  | cons k ks ih =>
    intro g
    rw [List.foldlM_cons, List.foldlM_cons]
    by_cases hs : sol (9 * 9 * i + 9 * j + k)
    · by_cases hchk : g i j ≠ 0 ∧ g i j ≠ k + 1
      · simp [decodeStepK, cellStep, hs, hchk]
      · simp only [decodeStepK, cellStep, if_pos hs, if_neg hchk,
          Option.bind_eq_bind, Option.some_bind]
        rw [ih]
        simp [update_self, update_update]
    · simp only [decodeStepK, cellStep, if_neg hs, Option.bind_eq_bind,
        Option.some_bind]
      rw [ih]

/-- The per-cell operation of the decoding j loop. -/
def cellOp (sol : Nat → Bool) (i : Nat) (g : Grid) (j : Nat) : Option Grid :=
  (decodeCellVal sol i j (g i j)).map fun v => update g i j v

/-- The per-row operation of the decoding i loop. -/
def rowOp (sol : Nat → Bool) (g : Grid) (i : Nat) : Option Grid :=
  (List.range 9).foldlM (cellOp sol i) g

theorem decodeGrid_factor (sol : Nat → Bool) (g : Grid) :
    decodeGrid sol g = (List.range 9).foldlM (rowOp sol) g := by
  unfold decodeGrid rowOp cellOp decodeCellVal
  simp only [foldK_factor]

/-- Success characterization of the decoding j loop over a duplicate-free list
of columns: each processed cell's value fold succeeded on its original value
and produced the final value, and every other position is untouched. -/
theorem rowFold_some (sol : Nat → Bool) (i : Nat) :
    ∀ (js : List Nat) (g g' : Grid), js.Nodup →
      js.foldlM (cellOp sol i) g = some g' →
      (∀ j ∈ js, decodeCellVal sol i j (g i j) = some (g' i j)) ∧
        (∀ a b, (a = i → b ∉ js) → g' a b = g a b) := by
  intro js
  induction js with
  | nil =>
    intro g g' _ h
    cases h
    exact ⟨fun j hj => absurd hj (List.not_mem_nil j), fun a b _ => rfl⟩
  | cons j js ih =>
    intro g g' hnd h
    rw [List.foldlM_cons] at h
    rcases hnd with _ | ⟨hj_nin, hnd⟩
    cases hcv : decodeCellVal sol i j (g i j) with
    | none => rw [cellOp, hcv] at h; cases h
    | some v =>
      rw [cellOp, hcv, Option.map_some', Option.bind_eq_bind, Option.some_bind] at h
      rcases ih (update g i j v) g' hnd h with ⟨h1, h2⟩
      have hnotin : j ∉ js := fun hmem => hj_nin j hmem rfl
      constructor
      · intro j' hj'
        rcases List.mem_cons.mp hj' with rfl | hj'mem
        · rw [hcv, h2 i j' (fun _ => hnotin), update_self]
        · have hx := h1 j' hj'mem
          rwa [update_other g v ?_] at hx
          intro ⟨_, hb⟩
          exact hj_nin j' hj'mem hb.symm
      · intro a b hab
        have hg' := h2 a b (fun ha hb => hab ha (List.mem_cons_of_mem _ hb))
        rw [hg', update_other g v]
        intro ⟨ha, hb⟩
        exact hab ha (hb ▸ List.mem_cons_self j js)

/-- Failure characterization of the decoding j loop: it panics exactly when
the value fold of one of its cells panics on that cell's original value. -/
theorem rowFold_none (sol : Nat → Bool) (i : Nat) :
    ∀ (js : List Nat) (g : Grid), js.Nodup →
      (js.foldlM (cellOp sol i) g = none ↔
        ∃ j ∈ js, decodeCellVal sol i j (g i j) = none) := by
  intro js
  induction js with
  | nil => intro g _; simp
  | cons j js ih =>
    intro g hnd
    rw [List.foldlM_cons]
    rcases hnd with _ | ⟨hj_nin, hnd⟩
    cases hcv : decodeCellVal sol i j (g i j) with
    | none =>
      rw [cellOp, hcv]
      simp only [Option.map_none', Option.bind_eq_bind, Option.none_bind]
      exact iff_of_true (by trivial) ⟨j, List.mem_cons_self j js, hcv⟩
    | some v =>
      rw [cellOp, hcv, Option.map_some', Option.bind_eq_bind, Option.some_bind]
      rw [ih (update g i j v) hnd]
      constructor
      · rintro ⟨j', hj', hcv'⟩
        refine ⟨j', List.mem_cons_of_mem _ hj', ?_⟩
        rwa [update_other g v ?_] at hcv'
        intro ⟨_, hb⟩
        exact hj_nin j' hj' hb.symm
      · rintro ⟨j', hj', hcv'⟩
        rcases List.mem_cons.mp hj' with rfl | hj'mem
        · rw [hcv] at hcv'; cases hcv'
        · refine ⟨j', hj'mem, ?_⟩
          rwa [update_other g v ?_]
          intro ⟨_, hb⟩
          exact hj_nin j' hj'mem hb.symm

/-- Success characterization of the decoding i loop over a duplicate-free list
of rows. -/
theorem gridFold_some (sol : Nat → Bool) :
    ∀ (is : List Nat) (g g' : Grid), is.Nodup →
      is.foldlM (rowOp sol) g = some g' →
      (∀ i ∈ is, ∀ j < 9, decodeCellVal sol i j (g i j) = some (g' i j)) ∧
        (∀ a b, (a ∉ is ∨ b ∉ List.range 9) → g' a b = g a b) := by
  intro is
  induction is with
  | nil =>
    intro g g' _ h
    cases h
    exact ⟨fun i hi => absurd hi (List.not_mem_nil i), fun a b _ => rfl⟩
  | cons i is ih =>
    intro g g' hnd h
    rw [List.foldlM_cons] at h
    rcases hnd with _ | ⟨hi_nin, hnd⟩
    cases hr : rowOp sol g i with
    | none => rw [hr] at h; cases h
    | some g1 =>
      rw [hr, Option.bind_eq_bind, Option.some_bind] at h
      rcases rowFold_some sol i (List.range 9) g g1 (List.nodup_range 9) hr with
        ⟨hr1, hr2⟩
      rcases ih g1 g' hnd h with ⟨h1, h2⟩
      have hnotin : i ∉ is := fun hmem => hi_nin i hmem rfl
      constructor
      · intro i' hi' j hj
        rcases List.mem_cons.mp hi' with rfl | hi'mem
        · rw [hr1 j (List.mem_range.mpr hj), h2 i' j (Or.inl hnotin)]
        · have hx := h1 i' hi'mem j hj
          rwa [hr2 i' j (fun ha => absurd ha.symm (hi_nin i' hi'mem))] at hx
      · intro a b hab
        have hg1 : g1 a b = g a b := by
          rcases hab with ha | hb
          · refine hr2 a b fun hai => absurd ?_ ha
            rw [hai]
            exact List.mem_cons_self i is
          · exact hr2 a b (fun _ => hb)
        rcases hab with ha | hb
        · rw [h2 a b (Or.inl fun hmem => ha (List.mem_cons_of_mem _ hmem)), hg1]
        · rw [h2 a b (Or.inr hb), hg1]

/-- Failure characterization of the decoding i loop. -/
theorem gridFold_none (sol : Nat → Bool) :
    ∀ (is : List Nat) (g : Grid), is.Nodup →
      (is.foldlM (rowOp sol) g = none ↔
        ∃ i ∈ is, ∃ j < 9, decodeCellVal sol i j (g i j) = none) := by
  intro is
  induction is with
  | nil => intro g _; simp
  | cons i is ih =>
    intro g hnd
    rw [List.foldlM_cons]
    rcases hnd with _ | ⟨hi_nin, hnd⟩
    cases hr : rowOp sol g i with
    | none =>
      simp only [Option.bind_eq_bind, Option.none_bind]
      rcases (rowFold_none sol i (List.range 9) g (List.nodup_range 9)).mp hr with
        ⟨j, hj, hcv⟩
      exact iff_of_true (by trivial)
        ⟨i, List.mem_cons_self i is, j, List.mem_range.mp hj, hcv⟩
    | some g1 =>
      rw [Option.bind_eq_bind, Option.some_bind]
      rcases rowFold_some sol i (List.range 9) g g1 (List.nodup_range 9) hr with
        ⟨hr1, hr2⟩
      rw [ih g1 hnd]
      constructor
      · rintro ⟨i', hi', j, hj, hcv⟩
        refine ⟨i', List.mem_cons_of_mem _ hi', j, hj, ?_⟩
        rwa [hr2 i' j (fun ha => absurd ha.symm (hi_nin i' hi'))] at hcv
      · rintro ⟨i', hi', j, hj, hcv⟩
        rcases List.mem_cons.mp hi' with rfl | hi'mem
        · rw [hr1 j (List.mem_range.mpr hj)] at hcv
          cases hcv
        · refine ⟨i', hi'mem, j, hj, ?_⟩
          rwa [hr2 i' j (fun ha => absurd ha.symm (hi_nin i' hi'mem))]

/-- Success characterization of the whole decoding pass. -/
theorem decodeGrid_some_char {sol : Nat → Bool} {g g' : Grid}
    (h : decodeGrid sol g = some g') :
    (∀ i < 9, ∀ j < 9, decodeCellVal sol i j (g i j) = some (g' i j)) ∧
      (∀ a b, 9 ≤ a ∨ 9 ≤ b → g' a b = g a b) := by
  rw [decodeGrid_factor] at h
  rcases gridFold_some sol (List.range 9) g g' (List.nodup_range 9) h with ⟨h1, h2⟩
  exact ⟨fun i hi j hj => h1 i (List.mem_range.mpr hi) j hj,
    fun a b hab => h2 a b (by rcases hab with ha | hb
                              · exact Or.inl (by simp [List.mem_range]; omega)
                              · exact Or.inr (by simp [List.mem_range]; omega))⟩

/-- Failure characterization of the whole decoding pass. -/
theorem decodeGrid_none_char (sol : Nat → Bool) (g : Grid) :
    decodeGrid sol g = none ↔
      ∃ i < 9, ∃ j < 9, decodeCellVal sol i j (g i j) = none := by
  rw [decodeGrid_factor, gridFold_none sol (List.range 9) g (List.nodup_range 9)]
  constructor
  · rintro ⟨i, hi, j, hj, hcv⟩
    exact ⟨i, List.mem_range.mp hi, j, hj, hcv⟩
  · rintro ⟨i, hi, j, hj, hcv⟩
    exact ⟨i, List.mem_range.mpr hi, j, hj, hcv⟩

/-- When no listed variable of the cell is true, the value fold is the
identity. -/
theorem cellFold_no_true (sol : Nat → Bool) (i j : Nat) :
    ∀ (ks : List Nat) (v : Nat), (∀ k ∈ ks, ¬sol (9 * 9 * i + 9 * j + k)) →
      ks.foldlM (cellStep sol i j) v = some v := by
  intro ks
  induction ks with
  | nil => intro v _; rfl
  | cons k ks ih =>
    intro v h
    rw [List.foldlM_cons, cellStep, if_neg (h k (List.mem_cons_self k ks)),
      Option.bind_eq_bind, Option.some_bind]
    exact ih v fun x hx => h x (List.mem_cons_of_mem _ hx)

/-- Starting from a non-zero value, a successful value fold never changes the
value: any true variable must agree with it, and agreeing writes are
idempotent. -/
theorem cellFold_nonzero_inv (sol : Nat → Bool) (i j : Nat) :
    ∀ (ks : List Nat) (v w : Nat), v ≠ 0 →
      ks.foldlM (cellStep sol i j) v = some w → w = v := by
  intro ks
  induction ks with
  | nil =>
    intro v w _ h
    exact (Option.some.inj h).symm
  | cons k ks ih =>
    intro v w hv h
    rw [List.foldlM_cons] at h
    by_cases hs : sol (9 * 9 * i + 9 * j + k)
    · by_cases he : v = k + 1
      · rw [cellStep, if_pos hs, if_neg (by omega), Option.bind_eq_bind,
          Option.some_bind] at h
        rw [ih (k + 1) w (by omega) h, he]
      · rw [cellStep, if_pos hs, if_pos ⟨hv, he⟩] at h
        cases h
    · rw [cellStep, if_neg hs, Option.bind_eq_bind, Option.some_bind] at h
      exact ih v w hv h

/-- A successful value fold returns k + 1 for every true listed variable k. -/
theorem cellFold_true_agrees (sol : Nat → Bool) (i j : Nat) :
    ∀ (ks : List Nat) (v w : Nat), ks.foldlM (cellStep sol i j) v = some w →
      ∀ k ∈ ks, sol (9 * 9 * i + 9 * j + k) → w = k + 1 := by
  intro ks
  induction ks with
  | nil =>
    intro v w _ k hk
    exact absurd hk (List.not_mem_nil k)
  | cons k0 ks ih =>
    intro v w h k hk hs
    rw [List.foldlM_cons] at h
    rcases List.mem_cons.mp hk with rfl | hkmem
    · rw [cellStep, if_pos hs] at h
      by_cases hchk : v ≠ 0 ∧ v ≠ k + 1
      · rw [if_pos hchk] at h
        cases h
      · rw [if_neg hchk, Option.bind_eq_bind, Option.some_bind] at h
        exact cellFold_nonzero_inv sol i j ks (k + 1) w (by omega) h
    · by_cases hs0 : sol (9 * 9 * i + 9 * j + k0)
      · by_cases hchk : v ≠ 0 ∧ v ≠ k0 + 1
        · rw [cellStep, if_pos hs0, if_pos hchk] at h
          cases h
        · rw [cellStep, if_pos hs0, if_neg hchk, Option.bind_eq_bind,
            Option.some_bind] at h
          exact ih (k0 + 1) w h k hkmem hs
      · rw [cellStep, if_neg hs0, Option.bind_eq_bind, Option.some_bind] at h
        exact ih v w h k hkmem hs

/-- A clue cell panics as soon as some listed variable disagreeing with the
clue is true. -/
theorem cellFold_clue_none (sol : Nat → Bool) (i j : Nat) :
    ∀ (ks : List Nat) (v : Nat), v ≠ 0 →
      (∃ k ∈ ks, sol (9 * 9 * i + 9 * j + k) ∧ k + 1 ≠ v) →
      ks.foldlM (cellStep sol i j) v = none := by
  intro ks
  induction ks with
  | nil =>
    intro v _ h
    rcases h with ⟨k, hk, _⟩
    exact absurd hk (List.not_mem_nil k)
  | cons k0 ks ih =>
    intro v hv h
    rw [List.foldlM_cons]
    rcases h with ⟨k, hk, hs, hne⟩
    rcases List.mem_cons.mp hk with rfl | hkmem
    · rw [cellStep, if_pos hs, if_pos ⟨hv, by omega⟩]
      rfl
    · by_cases hs0 : sol (9 * 9 * i + 9 * j + k0)
      · by_cases hchk : v ≠ 0 ∧ v ≠ k0 + 1
        · rw [cellStep, if_pos hs0, if_pos hchk]
          rfl
        · rw [cellStep, if_pos hs0, if_neg hchk, Option.bind_eq_bind,
            Option.some_bind]
          have hvk : v = k0 + 1 := by tauto
          rw [← hvk]
          exact ih v hv ⟨k, hkmem, hs, hne⟩
      · rw [cellStep, if_neg hs0, Option.bind_eq_bind, Option.some_bind]
        exact ih v hv ⟨k, hkmem, hs, hne⟩

/-- A clue cell whose true listed variables all agree with the clue keeps its
value. -/
theorem cellFold_clue_some (sol : Nat → Bool) (i j : Nat) :
    ∀ (ks : List Nat) (v : Nat), v ≠ 0 →
      (∀ k ∈ ks, sol (9 * 9 * i + 9 * j + k) → k + 1 = v) →
      ks.foldlM (cellStep sol i j) v = some v := by
  intro ks
  induction ks with
  | nil => intro v _ _; rfl
  | cons k0 ks ih =>
    intro v hv h
    rw [List.foldlM_cons]
    by_cases hs0 : sol (9 * 9 * i + 9 * j + k0)
    · have hk0 := h k0 (List.mem_cons_self k0 ks) hs0
      rw [cellStep, if_pos hs0, if_neg (by omega), Option.bind_eq_bind,
        Option.some_bind, hk0]
      exact ih v hv fun k hk hs => h k (List.mem_cons_of_mem _ hk) hs
    · rw [cellStep, if_neg hs0, Option.bind_eq_bind, Option.some_bind]
      exact ih v hv fun k hk hs => h k (List.mem_cons_of_mem _ hk) hs

/-- A successful value fold is idempotent on its result. -/
theorem decodeCellVal_idem {sol : Nat → Bool} {i j v w : Nat}
    (h : decodeCellVal sol i j v = some w) :
    decodeCellVal sol i j w = some w := by
  by_cases hex : ∃ k ∈ List.range 9, sol (9 * 9 * i + 9 * j + k)
  · rcases hex with ⟨k, hk, hs⟩
    have hw : w = k + 1 := cellFold_true_agrees sol i j (List.range 9) v w h k hk hs
    exact cellFold_clue_some sol i j (List.range 9) w (by omega)
      fun k2 hk2 hs2 => (cellFold_true_agrees sol i j (List.range 9) v w h k2 hk2 hs2).symm
  · push_neg at hex
    have hno := cellFold_no_true sol i j (List.range 9) v
      fun k hk hs => hex k hk (by simpa using hs)
    rw [decodeCellVal] at h
    rw [hno] at h
    cases h
    exact cellFold_no_true sol i j (List.range 9) v
      fun k hk hs => hex k hk (by simpa using hs)

end DecodeLemmas

/-- C4: a successful decode assigns `digit + 1` to the cell of every true
variable (read at flat index `9*9*row + 9*col + digit`), never overwrites a
non-zero clue, and a true variable disagreeing with a non-zero clue makes the
decoder panic. -/
theorem claim_c4 (sol : Nat → Bool) (g g' : Grid) (i j k : Nat)
    (hi : i < 9) (hj : j < 9) (hk : k < 9) :
    (decodeGrid sol g = some g' → sol (9 * 9 * i + 9 * j + k) → g' i j = k + 1) ∧
      (decodeGrid sol g = some g' → g i j ≠ 0 → g' i j = g i j) ∧
        (g i j ≠ 0 → sol (9 * 9 * i + 9 * j + k) → k + 1 ≠ g i j →
          decodeGrid sol g = none) := by
  refine ⟨fun h hs => ?_, fun h h0 => ?_, fun h0 hs hne => ?_⟩
  · have hcell := (decodeGrid_some_char h).1 i hi j hj
    exact cellFold_true_agrees sol i j (List.range 9) (g i j) (g' i j) hcell k
      (List.mem_range.mpr hk) hs
  · have hcell := (decodeGrid_some_char h).1 i hi j hj
    exact cellFold_nonzero_inv sol i j (List.range 9) (g i j) (g' i j) h0 hcell
  · exact (decodeGrid_none_char sol g).mpr ⟨i, hi, j, hj,
      cellFold_clue_none sol i j (List.range 9) (g i j) h0
        ⟨k, List.mem_range.mpr hk, hs, hne⟩⟩

/-- Witness for C4: the assignment whose only true variable is 0 on the empty
grid, at cell (0, 0) and digit 0. -/
theorem claim_c4_witness :
    (decodeGrid (fun n => n == 0) (fun _ _ => 0) =
        some (update (fun _ _ => 0) 0 0 1) →
      (fun n => n == 0) (9 * 9 * 0 + 9 * 0 + 0) →
        update (fun _ _ => 0) 0 0 1 0 0 = 0 + 1) ∧
      (decodeGrid (fun n => n == 0) (fun _ _ => 0) =
          some (update (fun _ _ => 0) 0 0 1) →
        (fun _ _ => 0 : Grid) 0 0 ≠ 0 →
          update (fun _ _ => 0) 0 0 1 0 0 = (fun _ _ => 0 : Grid) 0 0) ∧
        ((fun _ _ => 0 : Grid) 0 0 ≠ 0 → (fun n => n == 0) (9 * 9 * 0 + 9 * 0 + 0) →
          0 + 1 ≠ (fun _ _ => 0 : Grid) 0 0 →
            decodeGrid (fun n => n == 0) (fun _ _ => 0) = none) :=
  claim_c4 (fun n => n == 0) (fun _ _ => 0) (update (fun _ _ => 0) 0 0 1) 0 0 0
    (by decide) (by decide) (by decide)

/-- C5: on Unsatisfiable, Unknown and BestEffort results `Sudoku::solve`
panics with the solver-failure diagnostic, leaving the grid as it was and
performing no retry; a decoded grid only ever arises from a Sat result whose
assignment decodes successfully. -/
theorem claim_c5 (g : Grid) (s : Nat → Bool) (res : Solution) (g2 : Grid) :
    solveStep Solution.Unsat g = SolveOutcome.solverFailure g ∧
      solveStep Solution.Unknown g = SolveOutcome.solverFailure g ∧
        solveStep (Solution.Best s) g = SolveOutcome.solverFailure g ∧
          (solveStep res g = SolveOutcome.ok g2 →
            ∃ s2, res = Solution.Sat s2 ∧ decodeGrid s2 g = some g2) := by
  refine ⟨rfl, rfl, rfl, fun h => ?_⟩
  cases res with
  | Sat sol =>
    refine ⟨sol, rfl, ?_⟩
    simp only [solveStep] at h
    cases hd : decodeGrid sol g with
    | none => rw [hd] at h; cases h
    | some gg => rw [hd] at h; cases h; rfl
  | Unsat => cases h
  | Unknown => cases h
  | Best s2 => cases h

/-- C8: decoding is idempotent: decoding the same assignment again from an
already decoded grid succeeds and returns that grid unchanged. -/
theorem claim_c8 (sol : Nat → Bool) (g g' : Grid)
    (h : decodeGrid sol g = some g') : decodeGrid sol g' = some g' := by
  rcases decodeGrid_some_char h with ⟨h1, h2⟩
  have hidem : ∀ i < 9, ∀ j < 9, decodeCellVal sol i j (g' i j) = some (g' i j) :=
    fun i hi j hj => decodeCellVal_idem (h1 i hi j hj)
  cases hd : decodeGrid sol g' with
  | none =>
    rcases (decodeGrid_none_char sol g').mp hd with ⟨i, hi, j, hj, hcv⟩
    rw [hidem i hi j hj] at hcv
    cases hcv
  | some g2 =>
    rcases decodeGrid_some_char hd with ⟨h1b, h2b⟩
    have : g2 = g' := by
      funext a b
      by_cases hab : a < 9 ∧ b < 9
      · have hx := h1b a hab.1 b hab.2
        rw [hidem a hab.1 b hab.2] at hx
        exact (Option.some.inj hx).symm
      · exact h2b a b (by omega)
    rw [this]

/-- Witness for C8: the assignment whose only true variable is 0, decoded once
from the empty grid. -/
theorem claim_c8_witness :
    decodeGrid (fun n => n == 0) (update (fun _ _ => 0) 0 0 1) =
      some (update (fun _ _ => 0) 0 0 1) :=
  claim_c8 (fun n => n == 0) (fun _ _ => 0) (update (fun _ _ => 0) 0 0 1) (by rfl)

/-- C10: an assignment making two distinct digit variables of one cell true
always makes the decoder panic, whatever the grid holds. -/
theorem claim_c10 (sol : Nat → Bool) (g : Grid) (i j k1 k2 : Nat)
    (hi : i < 9) (hj : j < 9) (hk1 : k1 < 9) (hk2 : k2 < 9) (hne : k1 ≠ k2)
    (hs1 : sol (9 * 9 * i + 9 * j + k1)) (hs2 : sol (9 * 9 * i + 9 * j + k2)) :
    decodeGrid sol g = none := by
  refine (decodeGrid_none_char sol g).mpr ⟨i, hi, j, hj, ?_⟩
  cases hcv : decodeCellVal sol i j (g i j) with
  | none => rfl
  | some w =>
    have e1 := cellFold_true_agrees sol i j (List.range 9) (g i j) w hcv k1
      (List.mem_range.mpr hk1) hs1
    have e2 := cellFold_true_agrees sol i j (List.range 9) (g i j) w hcv k2
      (List.mem_range.mpr hk2) hs2
    omega

/-- Witness for C10: variables 0 and 1 (cell (0, 0), digits 0 and 1) both true
on the empty grid. -/
theorem claim_c10_witness :
    decodeGrid (fun n => n == 0 || n == 1) (fun _ _ => 0) = none :=
  claim_c10 (fun n => n == 0 || n == 1) (fun _ _ => 0) 0 0 0 1
    (by decide) (by decide) (by decide) (by decide) (by decide) (by decide)
    (by decide)

section ReaderLemmas

/-- Characterization of a successful `parseCells` run: one cell per requested
index, each the image of the line's character there. -/
theorem parseCells_some {line : List Char} :
    ∀ (n j : Nat) (r : List Nat), parseCells line j n = some r →
      r.length = n ∧
        ∀ t < n, ∃ c, line.get? (j + t) = some c ∧
          r.get? t = some (charToCell c) := by
  intro n
  induction n with
  | zero =>
    intro j r h
    cases h
    exact ⟨rfl, fun t ht => absurd ht (by omega)⟩
  | succ n ih =>
    intro j r h
    simp only [parseCells] at h
    cases hg : line.get? j with
    | none => rw [hg] at h; cases h
    | some c =>
      rw [hg] at h
      simp only at h
      cases hr : parseCells line (j + 1) n with
      | none => rw [hr] at h; cases h
      | some r0 =>
        rw [hr, Option.map_some'] at h
        cases h
        rcases ih (j + 1) r0 hr with ⟨hlen, hget⟩
        refine ⟨by simp [hlen], ?_⟩
        intro t ht
        cases t with
        | zero => exact ⟨c, by simpa using hg, by simp⟩
        | succ t =>
          rcases hget t (by omega) with ⟨c2, hc2, hr2⟩
          refine ⟨c2, ?_, by simpa using hr2⟩
          rw [show j + (t + 1) = j + 1 + t by omega]
          exact hc2

/-- On a line long enough, `parseCells` cannot hit an out-of-bounds index. -/
theorem parseCells_total (line : List Char) :
    ∀ (n j : Nat), j + n ≤ line.length → ∃ r, parseCells line j n = some r := by
  intro n
  induction n with
  | zero => intro j _; exact ⟨[], rfl⟩
  | succ n ih =>
    intro j hjn
    cases hg : line.get? j with
    | none =>
      rw [List.get?_eq_none] at hg
      omega
    | some c =>
      rcases ih (j + 1) (by omega) with ⟨r, hr⟩
      refine ⟨charToCell c :: r, ?_⟩
      simp only [parseCells]
      rw [hg]
      simp only [hr, Option.map_some']

/-- A `read_line` call consumes a prefix of the input: line and rest
concatenate back to it. -/
theorem readLine_split : ∀ input : List Char,
    (readLine input).1 ++ (readLine input).2 = input := by
  intro input
  induction input with
  | nil => rfl
  | cons c cs ih =>
    by_cases hc : c = '\n'
    · simp [readLine, hc]
    · simp only [readLine, if_neg hc, List.cons_append]
      rw [ih]

theorem mem_of_mem_readLine_fst {input : List Char} {c : Char}
    (h : c ∈ (readLine input).1) : c ∈ input := by
  rw [← readLine_split input]
  exact List.mem_append_left _ h

theorem mem_of_mem_readLine_snd {input : List Char} {c : Char}
    (h : c ∈ (readLine input).2) : c ∈ input := by
  rw [← readLine_split input]
  exact List.mem_append_right _ h

/-- For an all-ASCII line the Rust byte length is the character count. -/
theorem lineBytes_ascii : ∀ {l : List Char}, (∀ c ∈ l, Char.utf8Size c = 1) →
    lineBytes l = l.length := by
  intro l
  induction l with
  | nil => intro _; rfl
  | cons c cs ih =>
    intro h
    simp only [lineBytes, List.map_cons, List.sum_cons] at *
    rw [h c (List.mem_cons_self c cs), ih fun x hx => h x (List.mem_cons_of_mem _ hx)]
    simp [Nat.add_comm]

/-- The row loop returns `noGrid` whenever one of the lines it is going to
read is short, for ASCII input. -/
theorem readGridAux_noGrid :
    ∀ (n : Nat) (input : List Char) (acc : List (List Nat)),
      (∀ c ∈ input, Char.utf8Size c = 1) →
      (∃ l ∈ takeLines n input, l.length < 9) →
      readGridAux n input acc = ReadResult.noGrid := by
  intro n
  induction n with
  | zero =>
    intro input acc _ h
    rcases h with ⟨l, hl, _⟩
    exact absurd hl (List.not_mem_nil l)
  | succ n ih =>
    intro input acc hascii h
    simp only [readGridAux]
    by_cases hshort : lineBytes (readLine input).1 < 9
    · rw [if_pos hshort]
    · rw [if_neg hshort]
      have hline_ascii : ∀ c ∈ (readLine input).1, Char.utf8Size c = 1 :=
        fun c hc => hascii c (mem_of_mem_readLine_fst hc)
      have hlen : 9 ≤ (readLine input).1.length := by
        rw [← lineBytes_ascii hline_ascii]
        omega
      rcases parseCells_total (readLine input).1 9 0 (by omega) with ⟨r, hr⟩
      rw [show parseLine (readLine input).1 = some r from hr]
      refine ih (readLine input).2 (acc ++ [r])
        (fun c hc => hascii c (mem_of_mem_readLine_snd hc)) ?_
      rcases h with ⟨l, hl, hllen⟩
      simp only [takeLines] at hl
      rcases List.mem_cons.mp hl with rfl | hlmem
      · omega
      · exact ⟨l, hlmem, hllen⟩

end ReaderLemmas

/-- C7: a parsed row reads the line's first 9 characters positionally, the
characters 1 through 9 standing for their digit and every other character for
an empty cell. -/
theorem claim_c7 (line : List Char) (row : List Nat)
    (h : parseLine line = some row) :
    row.length = 9 ∧
      (∀ j < 9, ∃ c, line.get? j = some c ∧ row.get? j = some (charToCell c)) ∧
        (∀ c : Char, '1' ≤ c → c ≤ '9' → charToCell c = c.toNat - '0'.toNat) ∧
          (∀ c : Char, ¬('1' ≤ c ∧ c ≤ '9') → charToCell c = 0) ∧
            (∀ d : Nat, 1 ≤ d → d ≤ 9 → charToCell (Char.ofNat (48 + d)) = d) ∧
              charToCell '.' = 0 ∧ charToCell '0' = 0 ∧ charToCell ' ' = 0 := by
  rcases parseCells_some 9 0 row h with ⟨hlen, hget⟩
  refine ⟨hlen, fun j hj => by simpa using hget j hj,
    fun c h1 h9 => by simp [charToCell, h1, h9],
    fun c hno => by simp [charToCell, hno],
    fun d hd1 hd9 => ?_, rfl, rfl, rfl⟩
  interval_cases d <;> decide

/-- Witness for C7 on the line "530070000". -/
theorem claim_c7_witness :
    ([5, 3, 0, 0, 7, 0, 0, 0, 0] : List Nat).length = 9 ∧
      (∀ j < 9, ∃ c, ("530070000".toList).get? j = some c ∧
        ([5, 3, 0, 0, 7, 0, 0, 0, 0] : List Nat).get? j = some (charToCell c)) ∧
        (∀ c : Char, '1' ≤ c → c ≤ '9' → charToCell c = c.toNat - '0'.toNat) ∧
          (∀ c : Char, ¬('1' ≤ c ∧ c ≤ '9') → charToCell c = 0) ∧
            (∀ d : Nat, 1 ≤ d → d ≤ 9 → charToCell (Char.ofNat (48 + d)) = d) ∧
              charToCell '.' = 0 ∧ charToCell '0' = 0 ∧ charToCell ' ' = 0 :=
  claim_c7 ("530070000".toList) [5, 3, 0, 0, 7, 0, 0, 0, 0] (by decide)

/-- The input refuting C6 as stated: nine newline-terminated lines of eight
characters each. Each raw line is 9 bytes (newline included), so the length
check passes and the newline is parsed as an empty ninth cell. -/
def cexInput : List Char := (List.replicate 9 ("12345678\n".toList)).flatten

/-- Counterexample to C6: the first of the nine lines of `cexInput` has fewer
than 9 characters before its newline, yet `read_grid_from_stdin` returns a
grid rather than `None`. -/
theorem claim_c6_cex :
    ((readLine cexInput).1.takeWhile (fun c => c != '\n')).length < 9 ∧
      readGridFromStdin cexInput =
        ReadResult.grid (List.replicate 9 [1, 2, 3, 4, 5, 6, 7, 8, 0]) ∧
      readGridFromStdin cexInput ≠ ReadResult.noGrid := by
  decide

/-- C6 amended: the length check is on the raw line's byte count, trailing
newline included. For ASCII input, whenever one of the nine raw reads (line
content plus its newline, or the empty string once input is exhausted) is
under 9 characters, the reader yields `None` — no crash and no partial
grid. -/
theorem claim_c6_amended (input : List Char)
    (hascii : ∀ c ∈ input, Char.utf8Size c = 1)
    (h : ∃ l ∈ takeLines 9 input, l.length < 9) :
    readGridFromStdin input = ReadResult.noGrid :=
  readGridAux_noGrid 9 input [] hascii h

/-- Witness for the amended C6 on the four-character input line "123". -/
theorem claim_c6_amended_witness :
    readGridFromStdin ("123\n".toList) = ReadResult.noGrid :=
  claim_c6_amended ("123\n".toList) (by decide) (by decide)

end SudokuSolver
